import Mathlib

set_option maxHeartbeats 1000000
set_option maxRecDepth 100000

/-! Verification development for a nostr client's protocol engine:
event codec (validation, canonical serialization, hashing, signing,
verification), the bech32-style identifier codec, feed sorting, and the
relay connection / relay pool bookkeeping. Definitions are shallow
embeddings of the JavaScript source; JavaScript exceptions are modelled
with `Except String`. -/

/-- Dynamic JavaScript values, restricted to the shapes the event codec
manipulates. JS numbers are modelled as integers: every number the codec
produces, serializes or compares in the verified paths is integral. -/
inductive JSValue where
  | null
  | jsUndefined
  | boolean (b : Bool)
  | num (n : Int)
  | str (s : String)
  | arr (elems : List JSValue)
  | obj (fields : List (String × JSValue))

/-- JavaScript `typeof` (note `typeof null === 'object'`). -/
def jsTypeof : JSValue → String
  | .null => "object"
  | .jsUndefined => "undefined"
  | .boolean _ => "boolean"
  | .num _ => "number"
  | .str _ => "string"
  | .arr _ => "object"
  | .obj _ => "object"

/-- JavaScript property access `o.k`: throws a TypeError on null or
undefined, yields `undefined` for an absent property; `length` on arrays
is supported. (String `.length` and numeric indexing are never used on
dynamic values by the embedded functions.) -/
def getField : JSValue → String → Except String JSValue
  | .null, k => .error ("TypeError: cannot read properties of null (reading " ++ k ++ ")")
  | .jsUndefined, k => .error ("TypeError: cannot read properties of undefined (reading " ++ k ++ ")")
  | .obj fields, k => .ok ((fields.lookup k).getD .jsUndefined)
  | .arr elems, k => .ok (if k = "length" then .num elems.length else .jsUndefined)
  | _, _ => .ok .jsUndefined

/-- `Array.isArray`. -/
def jsIsArray : JSValue → Bool
  | .arr _ => true
  | _ => false

/-- Replace the binding of key `k` in an association list (first
occurrence), appending it if absent — the denotation of JS object
property update where `List.lookup` reads the first binding. -/
def setAssoc {α : Type} (fields : List (String × α)) (k : String) (x : α) :
    List (String × α) :=
  match fields with
  | [] => [(k, x)]
  | (k', v') :: rest => if k' = k then (k, x) :: rest else (k', v') :: setAssoc rest k x

/-- JS property assignment `v.k = x`, and also the object spread
`\x7b ...v, k: x \x7d`: for a non-object (null, number, string, array)
the spread produces a fresh object carrying only `k` as far as the
embedded functions can observe (they never read numeric keys, the only
own enumerable properties a spread string or array would contribute). -/
def jsSetField (v : JSValue) (k : String) (x : JSValue) : JSValue :=
  match v with
  | .obj fields => .obj (setAssoc fields k x)
  | _ => .obj [(k, x)]

/-- Strict equality `s === v` between a known string and a dynamic value. -/
def jsStrictEqStr (s : String) (v : JSValue) : Bool :=
  match v with
  | .str t => s == t
  | _ => false

/-- Lowercase hex character, the class `[a-f0-9]`. -/
def isHexLowerChar (c : Char) : Bool :=
  ('a' ≤ c && c ≤ 'f') || ('0' ≤ c && c ≤ '9')

/-- The JS regex test `pubkey.match(/^[a-f0-9]\x7b64\x7d$/)` viewed as a
boolean: anchored at both ends (per ECMA-262 the `$` assertion without
the `m` flag succeeds only at the end of the input), it accepts exactly
the strings of 64 lowercase hex characters. -/
def matchHex64 (s : String) : Bool :=
  s.data.length == 64 && s.data.all isHexLowerChar

/-- A tag must be an array whose elements are all strings
(`Array.isArray(tag)` plus the inner `typeof tag[j] === 'string'` loop). -/
def validTag (tag : JSValue) : Bool :=
  match tag with
  | .arr elems => elems.all (fun e => jsTypeof e == "string")
  | _ => false

/-- Source `validateEvent`: structural check of an event. Faithful to the
JS dynamic semantics: `typeof event !== 'object'` lets `null` through
(JS `typeof null === 'object'`), so the subsequent `event.kind` access
throws on `null`; that is the only way this function can throw. -/
def validateEvent (event : JSValue) : Except String Bool := do
  if jsTypeof event != "object" then return false
  let kind ← getField event "kind"
  if jsTypeof kind != "number" then return false
  let content ← getField event "content"
  if jsTypeof content != "string" then return false
  let createdAt ← getField event "created_at"
  if jsTypeof createdAt != "number" then return false
  let pubkey ← getField event "pubkey"
  match pubkey with
  | .str s =>
    if !matchHex64 s then return false
    let tags ← getField event "tags"
    if !jsIsArray tags then return false
    match tags with
    | .arr ts => return ts.all validTag
    | _ => return false
  | _ => return false

/-- One character of a JSON string body, escaped as `JSON.stringify`
escapes it (quote, backslash, the short control escapes, `\uXXXX` for the
remaining control characters). -/
def jsonEscapeChar (c : Char) : String :=
  if c = '"' then "\\\""
  else if c = '\\' then "\\\\"
  else if c = '\n' then "\\n"
  else if c = '\r' then "\\r"
  else if c = '\t' then "\\t"
  else if c = '\x08' then "\\b"
  else if c = '\x0c' then "\\f"
  else if c.toNat < 32 then
    "\\u00" ++ String.singleton ("0123456789abcdef".data.getD (c.toNat / 16) '0')
      ++ String.singleton ("0123456789abcdef".data.getD (c.toNat % 16) '0')
  else String.singleton c

/-- A JSON string literal: quotes around the escaped body. -/
def jsonQuote (s : String) : String :=
  "\"" ++ String.join (s.data.map jsonEscapeChar) ++ "\""

mutual

/-- `JSON.stringify` on the embedded values. `undefined` occurs in the
verified paths only as an array element, where JSON.stringify renders it
as `null`. -/
def jsonStringify : JSValue → String
  | .null => "null"
  | .jsUndefined => "null"
  | .boolean b => cond b "true" "false"
  | .num n => toString n
  | .str s => jsonQuote s
  | .arr elems => "[" ++ String.intercalate "," (jsonStringifyList elems) ++ "]"
  | .obj fields =>
    "\x7b" ++ String.intercalate "," (jsonStringifyFields fields) ++ "\x7d"

def jsonStringifyList : List JSValue → List String
  | [] => []
  | v :: rest => jsonStringify v :: jsonStringifyList rest

def jsonStringifyFields : List (String × JSValue) → List String
  | [] => []
  | (k, v) :: rest => (jsonQuote k ++ ":" ++ jsonStringify v) :: jsonStringifyFields rest

end

/-- UTF-8 encoding of one character (`TextEncoder` semantics). -/
def utf8EncodeChar (c : Char) : List Nat :=
  let n := c.toNat
  if n < 0x80 then [n]
  else if n < 0x800 then [0xc0 + n / 64, 0x80 + n % 64]
  else if n < 0x10000 then [0xe0 + n / 4096, 0x80 + n / 64 % 64, 0x80 + n % 64]
  else [0xf0 + n / 262144, 0x80 + n / 4096 % 64, 0x80 + n / 64 % 64, 0x80 + n % 64]

/-- `utf8Encoder.encode`: the UTF-8 bytes of a string. -/
def utf8Encode (s : String) : List Nat :=
  (s.data.map utf8EncodeChar).flatten

/-- JS `Number.prototype.toString(16)` for a nonnegative integer:
lowercase hexadecimal digits, `"0"` for zero. -/
def jsToHexString (n : Nat) : String :=
  String.mk (Nat.toDigits 16 n)

/-- JS `String.prototype.padStart(2, '0')`. -/
def padStart2 (s : String) : String :=
  if s.length < 2 then String.mk (List.replicate (2 - s.length) '0') ++ s else s

/-- `bytesToHex` (identical in the noble utils import and the local copy
in the identifier codec): each byte as `b.toString(16).padStart(2, '0')`,
joined. -/
def bytesToHex (bytes : List Nat) : String :=
  String.join (bytes.map (fun b => padStart2 (jsToHexString b)))

/-- Source `serializeEvent`: throws if validation fails (or if
`validateEvent` itself throws), otherwise the canonical JSON array
`[0, pubkey, created_at, kind, tags, content]`. -/
def serializeEvent (event : JSValue) : Except String String := do
  let ok ← validateEvent event
  if !ok then throw "Can't serialize event with wrong or missing properties"
  let pubkey ← getField event "pubkey"
  let createdAt ← getField event "created_at"
  let kind ← getField event "kind"
  let tags ← getField event "tags"
  let content ← getField event "content"
  pure (jsonStringify (.arr [.num 0, pubkey, createdAt, kind, tags, content]))

/-- Source `getEventHash`: SHA-256 of the UTF-8 serialized event,
rendered as hex. The hash primitive is a parameter (external library). -/
def getEventHash (sha256 : List Nat → List Nat) (event : JSValue) :
    Except String String := do
  let serialized ← serializeEvent event
  pure (bytesToHex (sha256 (utf8Encode serialized)))

/-- Source `finalizeEvent`: derive the pubkey, spread it onto the
template, set `id` to the event hash and `sig` to the Schnorr signature
over `id`. The curve primitives are parameters (external library). -/
def finalizeEvent (getPublicKey : List Nat → List Nat)
    (sign : String → List Nat → List Nat) (sha256 : List Nat → List Nat)
    (eventTemplate : JSValue) (secretKey : List Nat) : Except String JSValue := do
  let pubkey := bytesToHex (getPublicKey secretKey)
  let event := jsSetField eventTemplate "pubkey" (.str pubkey)
  let id ← getEventHash sha256 event
  let event2 := jsSetField event "id" (.str id)
  let sig := bytesToHex (sign id secretKey)
  pure (jsSetField event2 "sig" (.str sig))

/-- Source `verifyEvent`: recompute the hash (NOT inside the try block —
a validation failure in `getEventHash` propagates), reject on `id`
mismatch, then check the Schnorr signature with any exception from the
library converted to `false`. `schnorrVerify` receives the dynamic `sig`
and `pubkey` values and may throw (modelled as `Except.error`). -/
def verifyEvent (sha256 : List Nat → List Nat)
    (schnorrVerify : JSValue → String → JSValue → Except String Bool)
    (event : JSValue) : Except String Bool := do
  let hash ← getEventHash sha256 event
  let idField ← getField event "id"
  if !jsStrictEqStr hash idField then return false
  let sigField ← getField event "sig"
  let pkField ← getField event "pubkey"
  match schnorrVerify sigField hash pkField with
  | .ok b => return b
  | .error _ => return false

/-- An event as consumed by the feed sorter `sortEvents`: `created_at`
and `id` are the two keys the comparator reads; `payload` is the rest of
the event record (pubkey, content, tags, sig), which the sort carries
around untouched — equal-key events with different payloads are what
make stability observable. -/
structure SortableEvent where
  created_at : Int
  id : String
  payload : JSValue

/-- Code-point lexicographic comparison of character lists. -/
def charListCompare : List Char → List Char → Ordering
  | [], [] => .eq
  | [], _ :: _ => .lt
  | _ :: _, [] => .gt
  | a :: as, b :: bs =>
    match compare a.toNat b.toNat with
    | .eq => charListCompare as bs
    | o => o

/-- JS `a.id.localeCompare(b.id)` modelled as code-point lexicographic
comparison reported as a sign. On the lowercase-hex event ids the sorter
compares, locale collation agrees with code-point order. -/
def localeCompare (s t : String) : Int :=
  match charListCompare s.data t.data with
  | .lt => -1
  | .eq => 0
  | .gt => 1

/-- The comparator passed to `events.sort`: `created_at` descending,
ties by `localeCompare` of `id`. -/
def compareEvents (a b : SortableEvent) : Int :=
  if a.created_at != b.created_at then b.created_at - a.created_at
  else localeCompare a.id b.id

/-- The comparator as a boolean "sorts no later than" relation, the order
a stable comparison sort arranges by. -/
def eventLe (a b : SortableEvent) : Bool :=
  decide (compareEvents a b ≤ 0)

/-- Source `sortEvents`: `Array.prototype.sort` with `compareEvents`
(a stable comparison sort per the ECMAScript specification), modelled by
a stable merge sort. -/
def sortEvents (events : List SortableEvent) : List SortableEvent :=
  events.mergeSort eventLe

/-- A JS array heap: references are indices into a store, so that the
in-place behaviour of `Array.prototype.sort` (mutate the receiver, return
the receiver) is observable. -/
def ArrayStore : Type :=
  Nat → List SortableEvent

/-- Source `sortEvents` seen with its effect on the heap: `events.sort`
sorts the referenced array in place and `sortEvents` returns that same
reference. -/
def sortEventsInPlace (events : Nat) (store : ArrayStore) : ArrayStore × Nat :=
  (fun r => if r = events then sortEvents (store events) else store r, events)

/-- The 32-symbol bech32 alphabet (no '1', 'b', 'i', 'o'). -/
def BECH32_CHARSET : List Char :=
  "qpzry9x8gf2tvdw0s3jn54khce6mua7l".data

/-- The generator constants of the bech32 polymod. -/
def GEN : List Nat :=
  [0x3b6a57b2, 0x26508e6d, 0x1ea119fa, 0x3d4233dd, 0x2a1462b3]

/-- One step of `bech32Polymod`'s fold over the values. -/
def polymodStep (chk v : Nat) : Nat :=
  let b := chk >>> 25
  let chk2 := ((chk &&& 0x1ffffff) <<< 5) ^^^ v
  (List.range 5).foldl
    (fun c j => if (b >>> j) &&& 1 == 1 then c ^^^ GEN.getD j 0 else c) chk2

/-- Source `bech32Polymod`: the checksum remainder over the value list. -/
def bech32Polymod (values : List Nat) : Nat :=
  values.foldl polymodStep 1

/-- Source `prefixExpand` on the human-readable part `hrp`: high bits of
each character, a zero, then low bits of each character. (JS `charCodeAt`
and `Char.toNat` agree on the characters used by any recognized tag.) -/
def prefixExpand (hrp : List Char) : List Nat :=
  (hrp.map (fun c => c.toNat >>> 5)) ++ [0] ++ (hrp.map (fun c => c.toNat &&& 31))

/-- Source `createChecksum`: six 5-bit symbols from the polymod of the
expanded hrp, the data, and six zero slots, xored with 1. -/
def createChecksum (hrp : List Char) (data : List Nat) : List Nat :=
  let values := prefixExpand hrp ++ data ++ [0, 0, 0, 0, 0, 0]
  let polymod := bech32Polymod values ^^^ 1
  (List.range 6).map (fun i => (polymod >>> (5 * (5 - i))) &&& 31)

/-- The inner `while (bits >= toBits)` loop of `convertBits`: emit 5-bit
(resp. 8-bit) groups from the accumulator top down, returning the emitted
groups and the remaining bit count. (The guard also requires
`0 < toBits`, vacuous at the two call sites `toBits = 5` and `toBits = 8`
but needed for the loop to terminate at all.) -/
def cbEmitGo (fuel toBits maxv acc bits : Nat) : List Nat × Nat :=
  match fuel with
  | 0 => ([], bits)
  | fuel2 + 1 =>
    if 0 < toBits ∧ toBits ≤ bits then
      let prev := cbEmitGo fuel2 toBits maxv acc (bits - toBits)
      (((acc >>> (bits - toBits)) &&& maxv) :: prev.1, prev.2)
    else ([], bits)

/-- The loop, run with fuel `bits`: sufficient, since an iteration only
runs when it removes `toBits ≥ 1` bits. -/
def cbEmit (toBits maxv acc bits : Nat) : List Nat × Nat :=
  cbEmitGo bits toBits maxv acc bits

/-- The main loop of `convertBits` over the input values. JS evaluates
`acc = (acc << fromBits) | value` in 32-bit arithmetic: the shift
truncates to 32 bits and, `value` being below `2 ^ fromBits` (checked
just before), the OR onto the cleared low bits is addition. -/
def cbLoop (fromBits toBits maxv : Nat) :
    List Nat → Nat → Nat → Except String (List Nat × Nat × Nat)
  | [], acc, bits => .ok ([], acc, bits)
  | value :: rest, acc, bits =>
    if value >>> fromBits != 0 then .error "Invalid data"
    else
      let acc2 := (acc <<< fromBits) % 2 ^ 32 + value
      let drained := cbEmit toBits maxv acc2 (bits + fromBits)
      match cbLoop fromBits toBits maxv rest acc2 drained.2 with
      | .ok (out, accF, bitsF) => .ok (drained.1 ++ out, accF, bitsF)
      | .error e => .error e

/-- Source `convertBits`: regroup the bit stream of `data` from
`fromBits`-bit groups to `toBits`-bit groups; with `pad`, flush a final
zero-padded group; without, require the leftover bits to be fewer than
`fromBits` and all zero. -/
def convertBits (data : List Nat) (fromBits toBits : Nat) (pad : Bool) :
    Except String (List Nat) :=
  let maxv := (1 <<< toBits) - 1
  match cbLoop fromBits toBits maxv data 0 0 with
  | .error e => .error e
  | .ok (result, acc, bits) =>
    if pad then
      if bits > 0 then .ok (result ++ [(acc <<< (toBits - bits)) &&& maxv])
      else .ok result
    else if bits ≥ fromBits || ((acc <<< (toBits - bits)) &&& maxv) != 0 then
      .error "Invalid padding"
    else .ok result

/-- JS `String.prototype.lastIndexOf` on one character: the greatest
index holding it, `-1` if absent. -/
def lastIndexOf (c : Char) : List Char → Int
  | [] => -1
  | x :: xs =>
    let r := lastIndexOf c xs
    if r ≥ 0 then r + 1 else if x = c then 0 else -1

/-- JS `Array.prototype.join('')` on a list of numbers. -/
def joinNats (l : List Nat) : String :=
  String.join (l.map (fun n => toString n))

/-- Source `bech32Encode`: hrp, the separator '1', then the 5-bit groups
of the payload followed by the checksum, each rendered through the
alphabet. (Indexing `BECH32_CHARSET[i]` is total here: every emitted
group and checksum symbol is below 32.) -/
def bech32Encode (hrp : List Char) (data : List Nat) : Except String (List Char) := do
  let combined ← convertBits data 8 5 true
  let checksum := createChecksum hrp combined
  let encoded := (combined ++ checksum).map (fun i => BECH32_CHARSET.getD i ' ')
  pure (hrp ++ '1' :: encoded)

/-- Source `bech32Decode`: split at the last '1', translate symbols back
through the alphabet, check the checksum (JS compares the two number
lists via `join('')`), and regroup the payload into bytes. JS
`slice(0, -6)` / `slice(-6)` on a list shorter than 6 give `[]` and the
whole list; truncated `Nat` subtraction in `take`/`drop` reproduces that. -/
def bech32Decode (str : List Char) : Except String (List Char × List Nat) := do
  let pos := lastIndexOf '1' str
  if pos < 1 then throw "Invalid bech32 string"
  let hrp := str.take pos.toNat
  let dataPart := str.drop (pos.toNat + 1)
  let decoded ← dataPart.mapM (fun c =>
    match BECH32_CHARSET.findIdx? (fun x => x == c) with
    | some v => Except.ok v
    | none => Except.error "Invalid character")
  let payload := decoded.take (decoded.length - 6)
  let checksum := decoded.drop (decoded.length - 6)
  let expectedChecksum := createChecksum hrp payload
  if joinNats checksum != joinNats expectedChecksum then throw "Invalid checksum"
  let out ← convertBits payload 5 8 false
  pure (hrp, out)

/-- Source `npubDecode`: bech32-decode, require the `npub` tag, render
the payload as hex. No payload length check is performed. -/
def npubDecode (npub : String) : Except String String := do
  let r ← bech32Decode npub.data
  if r.1 ≠ "npub".data then throw "Invalid npub"
  pure (bytesToHex r.2)

/-- Source `nsecDecode`: bech32-decode, require the `nsec` tag, render
the payload as hex. No payload length check is performed. -/
def nsecDecode (nsec : String) : Except String String := do
  let r ← bech32Decode nsec.data
  if r.1 ≠ "nsec".data then throw "Invalid nsec"
  pure (bytesToHex r.2)

/-- Source `noteDecode`: bech32-decode, require the `note` tag, render
the payload as hex. No payload length check is performed. -/
def noteDecode (note : String) : Except String String := do
  let r ← bech32Decode note.data
  if r.1 ≠ "note".data then throw "Invalid note"
  pure (bytesToHex r.2)

/-- A registered subscription: the filters (dynamic JSON values passed
through to the relay) and the two callbacks, held opaque. -/
structure RelaySub (β γ : Type) where
  filters : List JSValue
  onEvent : β
  onEose : Option γ

/-- The bookkeeping of one `Relay` connection: its status string
('disconnected', 'connecting', 'connected', 'error') and the three
`Map`s keyed by subscription id, modelled as unique-key association
lists. Callback values are opaque type parameters. -/
structure RelayState (β γ : Type) where
  status : String
  subscriptions : List (String × RelaySub β γ)
  eventCallbacks : List (String × β)
  eoseCallbacks : List (String × γ)

/-- The `Relay` constructor's initial bookkeeping. -/
def initialRelayState (β γ : Type) : RelayState β γ :=
  ⟨"disconnected", [], [], []⟩

/-- JS `Map.prototype.delete`: remove the binding of a key. -/
def mapDelete {α : Type} (k : String) (m : List (String × α)) : List (String × α) :=
  m.filter (fun p => p.1 != k)

/-- Source `Relay.unsubscribe`: send a CLOSE frame only when connected
(returned as the list of transmitted frames), and unconditionally drop
the id from the subscription, event-callback and EOSE-callback maps. -/
def unsubscribe {β γ : Type} (subId : String) (s : RelayState β γ) :
    RelayState β γ × List String :=
  let messages :=
    if s.status == "connected"
    then [jsonStringify (.arr [.str "CLOSE", .str subId])] else []
  (⟨s.status, mapDelete subId s.subscriptions,
    mapDelete subId s.eventCallbacks, mapDelete subId s.eoseCallbacks⟩,
   messages)

/-- Source `generateSubId`: `Math.random().toString(36).substring(2, 15)`.
Modelled from the spec for the host primitive: `Math.random().toString(36)`
is an oracle of rendered strings, one per draw, consumed in order;
`substring(2, 15)` (drop the "0." part, keep up to 13 characters) is
applied faithfully. -/
def generateSubId (randomToString36 : Nat → String) (draw : Nat) : String × Nat :=
  (String.mk (((randomToString36 draw).data.drop 2).take 13), draw + 1)

/-- Source `Relay.subscribe`: allocate an id, register the callbacks,
emit the REQ frame (transmitted at once when connected, after the
connect promise otherwise — either way it is this frame), and record the
subscription. Returns the id, the new bookkeeping, the next oracle
position and the emitted frame. -/
def subscribe {β γ : Type} (randomToString36 : Nat → String)
    (filters : List JSValue) (onEvent : β) (onEose : Option γ)
    (s : RelayState β γ) (draw : Nat) :
    String × RelayState β γ × Nat × List String :=
  let idDraw := generateSubId randomToString36 draw
  let subId := idDraw.1
  let s2 := { s with eventCallbacks := setAssoc s.eventCallbacks subId onEvent }
  let s3 :=
    { s2 with eoseCallbacks :=
        match onEose with
        | some cb => setAssoc s2.eoseCallbacks subId cb
        | none => s2.eoseCallbacks }
  let message := jsonStringify (.arr (.str "REQ" :: .str subId :: filters))
  let s4 := { s3 with subscriptions := setAssoc s3.subscriptions subId ⟨filters, onEvent, onEose⟩ }
  (subId, s4, idDraw.2, [message])

/-- The ids handed out by a sequence of `subscribe` calls on one
connection, threading the bookkeeping and the oracle position. -/
def allocatedSubIds {β γ : Type} (randomToString36 : Nat → String)
    (s : RelayState β γ) (draw : Nat) :
    List (List JSValue × β × Option γ) → List String
  | [] => []
  | (filters, onEvent, onEose) :: rest =>
    let r := subscribe randomToString36 filters onEvent onEose s draw
    r.1 :: allocatedSubIds randomToString36 r.2.1 r.2.2.1 rest

/-- The settled value of one member's `relay.publish(event).catch(...)`
inside `RelayPool.publish`: a successful `publish` resolves with
`undefined`; the catch handler turns a rejection into the object
`\x7b relay: relay.url, error: err \x7d`. -/
inductive PublishOutcome where
  | jsUndefined
  | failure (relayUrl : String) (err : String)
deriving DecidableEq, Repr

/-- `Promise.all`: resolves with the list of values if every promise
resolves, rejects with the first rejection otherwise. -/
def promiseAll {α : Type} : List (Except String α) → Except String (List α)
  | [] => .ok []
  | x :: xs =>
    match x with
    | .error e => .error e
    | .ok v =>
      match promiseAll xs with
      | .error e => .error e
      | .ok vs => .ok (v :: vs)

/-- One member's attempt inside the pool's loop:
`relay.publish(event).catch(err => ... \x7b relay, error \x7d)`.
`attempt url` is the settled result of `relay.publish(event)` on the
member with that URL (its connect-and-send may reject). -/
def relayPublishCaught (attempt : String → Except String Unit) (url : String) :
    Except String PublishOutcome :=
  match attempt url with
  | .ok _ => .ok .jsUndefined
  | .error err => .ok (.failure url err)

/-- Source `RelayPool.publish`: fire the caught publish at every member
(in the registry's iteration order) and `Promise.all` the results. -/
def poolPublish (memberUrls : List String)
    (attempt : String → Except String Unit) : Except String (List PublishOutcome) :=
  promiseAll (memberUrls.map (relayPublishCaught attempt))

/-- Which relay an outcome entry identifies, if any: a failure object
carries `relay`; the `undefined` of a success carries nothing. -/
def outcomeRelay : PublishOutcome → Option String
  | .jsUndefined => none
  | .failure url _ => some url

/-! Claim C3. The claim says `validate` returns a boolean for every input
value whatsoever, including null, and never throws. The code's guard
`typeof event !== 'object'` does not stop `null` (JS `typeof null` is
`'object'`), so `validateEvent(null)` throws a TypeError at the
`event.kind` access. The spec's "never throws" is clearly the intent and
the missing null check a slip, so this is recorded as a code bug; the
theorem evaluates the embedded code at the failing input. -/

/-- C3: at the input `null`, `validateEvent` throws (the embedded
function returns an error) instead of returning `false` as the claim
requires. -/
theorem validateEvent_null_throws :
    validateEvent JSValue.null =
      .error "TypeError: cannot read properties of null (reading kind)" := rfl

/-! Claim C10: `sortEvents` delegates to `Array.prototype.sort`, which
reorders the receiver in place and returns the receiver; the heap model
makes both halves observable. -/

/-- C10: on the array-heap model, `sortEvents` returns the very reference
it was given, the referenced array is afterwards the sorted contents, and
every other array in the heap is untouched. -/
theorem sortEventsInPlace_spec (events : Nat) (store : ArrayStore) :
    (sortEventsInPlace events store).2 = events ∧
    (sortEventsInPlace events store).1 events = sortEvents (store events) ∧
    ∀ r, r ≠ events → (sortEventsInPlace events store).1 r = store r := by
  refine ⟨rfl, by simp [sortEventsInPlace], fun r hr => ?_⟩
  simp [sortEventsInPlace, hr]

/-- Witness for C10's theorem at a concrete heap. -/
theorem sortEventsInPlace_spec_witness :
    (sortEventsInPlace 0 (fun _ => [])).2 = 0 ∧
    (sortEventsInPlace 0 (fun _ => [])).1 1 = [] := by
  have h := sortEventsInPlace_spec 0 (fun _ => [])
  exact ⟨h.1, h.2.2 1 (by decide)⟩

/-! Claim C7: unsubscribe bookkeeping. -/

/-- Deleting a key leaves no binding for it. -/
theorem lookup_mapDelete {α : Type} (k : String) (m : List (String × α)) :
    (mapDelete k m).lookup k = none := by
  rw [List.lookup_eq_none_iff]
  intro p hp
  have h2 := (List.mem_filter.mp hp).2
  simp only [bne_iff_ne] at h2 ⊢
  exact fun he => h2 he.symm

/-- Deleting a key twice is the same as deleting it once. -/
theorem mapDelete_idem {α : Type} (k : String) (m : List (String × α)) :
    mapDelete k (mapDelete k m) = mapDelete k m := by
  simp [mapDelete, List.filter_filter]

/-- Deleting an unbound key changes nothing. -/
theorem mapDelete_of_lookup_none {α : Type} (k : String) (m : List (String × α))
    (h : m.lookup k = none) : mapDelete k m = m := by
  rw [List.lookup_eq_none_iff] at h
  refine List.filter_eq_self.mpr (fun p hp => ?_)
  have h3 := h p hp
  simp only [bne_iff_ne] at h3 ⊢
  exact fun he => h3 he.symm

/-- C7: `unsubscribe` removes the id from all three registries whatever
the transport status (which it leaves unchanged); repeating it with the
same id leaves the bookkeeping fixed; and for an id bound in none of the
registries it is a no-op on the bookkeeping. -/
theorem unsubscribe_spec {β γ : Type} (subId : String) (s : RelayState β γ) :
    ((unsubscribe subId s).1.subscriptions.lookup subId = none ∧
      (unsubscribe subId s).1.eventCallbacks.lookup subId = none ∧
      (unsubscribe subId s).1.eoseCallbacks.lookup subId = none ∧
      (unsubscribe subId s).1.status = s.status) ∧
    (unsubscribe subId (unsubscribe subId s).1).1 = (unsubscribe subId s).1 ∧
    (s.subscriptions.lookup subId = none → s.eventCallbacks.lookup subId = none →
      s.eoseCallbacks.lookup subId = none → (unsubscribe subId s).1 = s) := by
  refine ⟨⟨lookup_mapDelete _ _, lookup_mapDelete _ _, lookup_mapDelete _ _, rfl⟩,
    ?_, fun h1 h2 h3 => ?_⟩
  · simp [unsubscribe, mapDelete_idem]
  · have e1 := mapDelete_of_lookup_none subId s.subscriptions h1
    have e2 := mapDelete_of_lookup_none subId s.eventCallbacks h2
    have e3 := mapDelete_of_lookup_none subId s.eoseCallbacks h3
    cases s
    simp_all [unsubscribe]

/-- Witness for C7's theorem at a concrete bookkeeping state. -/
theorem unsubscribe_spec_witness :
    (unsubscribe "a" (initialRelayState Unit Unit)).1 = initialRelayState Unit Unit := by
  have h := unsubscribe_spec "a" (initialRelayState Unit Unit)
  exact h.2.2 rfl rfl rfl

/-! Claim C8: pool publish. The per-member catch makes every element of
the `Promise.all` input a resolved promise, so the aggregate never
rejects and carries one settled outcome per member in registry order —
but a successful member's outcome is `undefined` (the resolution value
of `Relay.publish`), which does not identify the relay; only failures
carry the relay URL. -/

/-- Amended C8: `poolPublish` never rejects, and resolves — only after
every member's attempt has settled — with exactly one outcome per member
in order: `undefined` for a success, a `\x7b relay, error \x7d` object
for a failure, each member's entry depending only on that member's own
attempt. -/
theorem poolPublish_spec (memberUrls : List String)
    (attempt : String → Except String Unit) :
    poolPublish memberUrls attempt =
      .ok (memberUrls.map (fun url =>
        match attempt url with
        | .ok _ => PublishOutcome.jsUndefined
        | .error e => PublishOutcome.failure url e)) := by
  induction memberUrls with
  | nil => rfl
  | cons url rest ih =>
    unfold poolPublish at ih ⊢
    rw [List.map_cons, List.map_cons]
    cases h : attempt url <;>
      simp [promiseAll, relayPublishCaught, h, ih]

/-- Counterexample to C8 as stated: with a single member whose publish
succeeds, the resolved outcome collection is `[undefined]`, and that
success entry identifies no relay. -/
theorem poolPublish_success_entry_anonymous :
    poolPublish ["wss://relay.damus.io/"] (fun _ => .ok ()) =
        .ok [PublishOutcome.jsUndefined] ∧
      outcomeRelay PublishOutcome.jsUndefined = none := ⟨rfl, rfl⟩

/-! Claim C9: subscription id uniqueness. `generateSubId` draws from
`Math.random()` and truncates its base-36 rendering; nothing checks for
collisions, so distinctness holds exactly as far as the drawn strings
are distinct — a colliding oracle yields colliding ids. -/

/-- The ids a run of `subscribe` calls allocates are precisely the
truncated oracle strings at consecutive draws, independent of the
bookkeeping state. -/
theorem allocatedSubIds_eq {β γ : Type} (randomToString36 : Nat → String)
    (s : RelayState β γ) (draw : Nat)
    (calls : List (List JSValue × β × Option γ)) :
    allocatedSubIds randomToString36 s draw calls =
      (List.range calls.length).map
        (fun i => String.mk (((randomToString36 (draw + i)).data.drop 2).take 13)) := by
  induction calls generalizing s draw with
  | nil => rfl
  | cons c rest ih =>
    obtain ⟨filters, onEvent, onEose⟩ := c
    simp only [allocatedSubIds, subscribe, generateSubId]
    rw [ih, List.length_cons, List.range_succ_eq_map, List.map_cons, List.map_map]
    congr 1
    apply List.map_congr_left
    intro i _
    have h2 : draw + 1 + i = draw + (i + 1) := by omega
    simp [Function.comp, Nat.succ_eq_add_one, h2]

/-- Counterexample to C9 as stated: with an oracle on which two draws of
`Math.random().toString(36)` render equally, two `subscribe` calls on one
connection allocate the same id — the allocated identifiers are not
pairwise distinct. -/
theorem allocatedSubIds_collision :
    allocatedSubIds (fun _ => "0.abc") (initialRelayState Unit Unit) 0
        [([], (), none), ([], (), none)] = ["abc", "abc"] ∧
      ¬ List.Pairwise (fun a b => a ≠ b)
          (allocatedSubIds (fun _ => "0.abc") (initialRelayState Unit Unit) 0
            [([], (), none), ([], (), none)]) := by
  constructor
  · rfl
  · intro h
    rw [show allocatedSubIds (fun _ => "0.abc") (initialRelayState Unit Unit) 0
          [([], (), none), ([], (), none)] = ["abc", "abc"] from rfl] at h
    exact (List.pairwise_cons.mp h).1 "abc" (by simp) rfl

/-- Amended C9: the identifiers allocated over a connection's lifetime
are pairwise distinct provided the truncated renderings of the random
draws consumed by those calls are pairwise distinct (the code itself
adds no collision protection). -/
theorem allocatedSubIds_distinct {β γ : Type} (randomToString36 : Nat → String)
    (s : RelayState β γ) (draw : Nat)
    (calls : List (List JSValue × β × Option γ))
    (h : ∀ i j, i < calls.length → j < calls.length → i ≠ j →
      String.mk (((randomToString36 (draw + i)).data.drop 2).take 13) ≠
        String.mk (((randomToString36 (draw + j)).data.drop 2).take 13)) :
    List.Pairwise (fun a b => a ≠ b)
      (allocatedSubIds randomToString36 s draw calls) := by
  rw [allocatedSubIds_eq]
  rw [List.pairwise_map]
  refine List.Pairwise.imp_of_mem ?_ (List.pairwise_lt_range calls.length)
  intro i j hi hj hlt
  exact h i j (List.mem_range.mp hi) (List.mem_range.mp hj) (Nat.ne_of_lt hlt)

/-- Witness for amended C9 at a two-call run with a non-colliding oracle. -/
theorem allocatedSubIds_distinct_witness :
    List.Pairwise (fun a b => a ≠ b)
      (allocatedSubIds (fun k => "0." ++ toString k) (initialRelayState Unit Unit) 0
        [([], (), none), ([], (), none)]) := by
  apply allocatedSubIds_distinct
  intro i j hi hj hne
  simp only [List.length_cons, List.length_nil] at hi hj
  interval_cases i <;> interval_cases j <;> revert hne <;> decide

/-! Claim C6: the feed ordering. -/

/-- Lexicographic comparison is reflexive. -/
theorem charListCompare_self (s : List Char) : charListCompare s s = .eq := by
  induction s with
  | nil => rfl
  | cons c rest ih =>
    unfold charListCompare
    rw [Nat.compare_eq_eq.mpr rfl]
    exact ih

/-- Lexicographic comparison is antisymmetric up to `Ordering.swap`. -/
theorem charListCompare_swap (s t : List Char) :
    charListCompare t s = (charListCompare s t).swap := by
  induction s generalizing t with
  | nil => cases t <;> rfl
  | cons c rest ih =>
    cases t with
    | nil => rfl
    | cons d ts =>
      unfold charListCompare
      rcases Nat.lt_trichotomy c.toNat d.toNat with h | h | h
      · rw [Nat.compare_eq_lt.mpr h, Nat.compare_eq_gt.mpr h]
        rfl
      · rw [Nat.compare_eq_eq.mpr h, Nat.compare_eq_eq.mpr h.symm]
        exact ih ts
      · rw [Nat.compare_eq_gt.mpr h, Nat.compare_eq_lt.mpr h]
        rfl

/-- Lexicographic comparison is transitive in its "not greater" form. -/
theorem charListCompare_trans (s t u : List Char)
    (h1 : charListCompare s t ≠ .gt) (h2 : charListCompare t u ≠ .gt) :
    charListCompare s u ≠ .gt := by
  induction s generalizing t u with
  | nil => cases u <;> simp [charListCompare]
  | cons c rest ih =>
    cases t with
    | nil => cases u <;> simp [charListCompare] at h1
    | cons d ts =>
      cases u with
      | nil => simp [charListCompare] at h2
      | cons e us =>
        unfold charListCompare at h1 h2 ⊢
        rcases Nat.lt_trichotomy c.toNat d.toNat with hcd | hcd | hcd <;>
          rcases Nat.lt_trichotomy d.toNat e.toNat with hde | hde | hde
        · rw [Nat.compare_eq_lt.mpr (hcd.trans hde)]
          simp
        · rw [Nat.compare_eq_lt.mpr (hde ▸ hcd)]
          simp
        · rw [Nat.compare_eq_gt.mpr hde] at h2
          exact absurd rfl h2
        · rw [Nat.compare_eq_lt.mpr (hcd ▸ hde)]
          simp
        · rw [Nat.compare_eq_eq.mpr hcd] at h1
          rw [Nat.compare_eq_eq.mpr hde] at h2
          rw [Nat.compare_eq_eq.mpr (hcd.trans hde)]
          exact ih ts us h1 h2
        · rw [Nat.compare_eq_gt.mpr hde] at h2
          exact absurd rfl h2
        · rw [Nat.compare_eq_gt.mpr hcd] at h1
          exact absurd rfl h1
        · rw [Nat.compare_eq_gt.mpr hcd] at h1
          exact absurd rfl h1
        · rw [Nat.compare_eq_gt.mpr hcd] at h1
          exact absurd rfl h1

/-- The comparator's sign is nonpositive exactly when the lexicographic
comparison does not say "greater". -/
theorem localeCompare_nonpos_iff (s t : String) :
    localeCompare s t ≤ 0 ↔ charListCompare s.data t.data ≠ .gt := by
  unfold localeCompare
  rcases h : charListCompare s.data t.data <;> simp [h]

/-- The boolean sort relation spelled out on the two sort keys. -/
theorem eventLe_iff (a b : SortableEvent) :
    eventLe a b = true ↔
      (b.created_at < a.created_at ∨
        (a.created_at = b.created_at ∧ localeCompare a.id b.id ≤ 0)) := by
  unfold eventLe compareEvents
  by_cases h : a.created_at = b.created_at
  · simp [h]
  · have hb : (a.created_at != b.created_at) = true := bne_iff_ne.mpr h
    simp only [hb, if_true, decide_eq_true_eq]
    constructor
    · intro hle
      left
      omega
    · rintro (hlt | ⟨he, _⟩)
      · omega
      · exact absurd he h

/-- The sort relation is total. -/
theorem eventLe_total (a b : SortableEvent) : (eventLe a b || eventLe b a) = true := by
  rw [Bool.or_eq_true, eventLe_iff, eventLe_iff]
  by_cases hc : a.created_at = b.created_at
  · rcases hcl : charListCompare a.id.data b.id.data
    · exact Or.inl (Or.inr ⟨hc, by simp [localeCompare, hcl]⟩)
    · exact Or.inl (Or.inr ⟨hc, by simp [localeCompare, hcl]⟩)
    · refine Or.inr (Or.inr ⟨hc.symm, ?_⟩)
      rw [localeCompare_nonpos_iff, charListCompare_swap, hcl]
      decide
  · rcases lt_or_gt_of_ne (show a.created_at ≠ b.created_at from hc) with h | h
    · exact Or.inr (Or.inl h)
    · exact Or.inl (Or.inl h)

/-- The sort relation is transitive. -/
theorem eventLe_trans (a b c : SortableEvent)
    (h1 : eventLe a b = true) (h2 : eventLe b c = true) : eventLe a c = true := by
  rw [eventLe_iff] at h1 h2 ⊢
  rcases h1 with h1 | ⟨h1e, h1l⟩ <;> rcases h2 with h2 | ⟨h2e, h2l⟩
  · left
    omega
  · left
    omega
  · left
    omega
  · right
    refine ⟨h1e.trans h2e, ?_⟩
    rw [localeCompare_nonpos_iff] at h1l h2l ⊢
    exact charListCompare_trans _ _ _ h1l h2l

/-- Two events with both sort keys equal compare as equal. -/
theorem eventLe_of_keys_eq {a b : SortableEvent}
    (hc : a.created_at = b.created_at) (hi : a.id = b.id) : eventLe a b = true := by
  rw [eventLe_iff]
  exact Or.inr ⟨hc, by rw [hi, localeCompare_nonpos_iff, charListCompare_self]; decide⟩

/-- C6: `sortEvents` permutes its input into an order that is
`created_at` strictly descending with ties broken by ascending lexical
`id` comparison, and the sort is stable: for any pair of key values, the
events carrying exactly those keys appear in the output in their input
order. -/
theorem sortEvents_spec (events : List SortableEvent) :
    (sortEvents events).Perm events ∧
    List.Pairwise (fun a b => b.created_at < a.created_at ∨
      (a.created_at = b.created_at ∧ localeCompare a.id b.id ≤ 0)) (sortEvents events) ∧
    ∀ t i, (sortEvents events).filter (fun e => e.created_at == t && e.id == i) =
      events.filter (fun e => e.created_at == t && e.id == i) := by
  refine ⟨List.mergeSort_perm events eventLe, ?_, ?_⟩
  · have hs := List.sorted_mergeSort eventLe_trans eventLe_total events
    exact hs.imp (fun hab => (eventLe_iff _ _).mp hab)
  · intro t i
    set p : SortableEvent → Bool := fun e => e.created_at == t && e.id == i
    have hp : ∀ e, p e = true → e.created_at = t ∧ e.id = i := by
      intro e he
      simp only [p, Bool.and_eq_true, beq_iff_eq] at he
      exact he
    have hpair : (events.filter p).Pairwise (fun a b => eventLe a b = true) := by
      refine List.pairwise_of_forall_mem_list (fun a ha b hb => ?_)
      obtain ⟨ha1, ha2⟩ := hp a (List.mem_filter.mp ha).2
      obtain ⟨hb1, hb2⟩ := hp b (List.mem_filter.mp hb).2
      exact eventLe_of_keys_eq (ha1.trans hb1.symm) (ha2.trans hb2.symm)
    have hsub : (events.filter p).Sublist (sortEvents events) :=
      List.sublist_mergeSort eventLe_trans eventLe_total hpair (List.filter_sublist events)
    have hsub2 : ((events.filter p).filter p).Sublist ((sortEvents events).filter p) :=
      hsub.filter p
    rw [List.filter_filter] at hsub2
    have hself : events.filter (fun a => p a && p a) = events.filter p := by
      simp
    rw [hself] at hsub2
    have hlen : ((sortEvents events).filter p).length = (events.filter p).length :=
      (List.Perm.filter p (List.mergeSort_perm events eventLe)).length_eq
    exact (hsub2.eq_of_length hlen.symm).symm

/-! Claim C5: the typed decoders. Each wrapper checks only the decoded
tag; no payload length constraint exists in the code, so a well-formed
bech32 string with a 16-byte payload under the expected tag decodes
successfully. -/

/-- Success of a tag-checking decode depends only on the bech32 decode
succeeding with the expected tag — the payload is unconstrained. -/
theorem isOk_tagDecode (x : Except String (List Char × List Nat))
    (tag : List Char) (msg : String) :
    ((do
      let r ← x
      if r.1 ≠ tag then throw msg
      pure (bytesToHex r.2) : Except String String)).isOk = true ↔
      ∃ d, x = .ok (tag, d) := by
  cases x with
  | error e => simp [Except.isOk, Except.toBool, Bind.bind, Except.bind]
  | ok r =>
    obtain ⟨hrp, d⟩ := r
    by_cases hr : hrp = tag
    · subst hr
      simp [Except.isOk, Except.toBool, Bind.bind, Except.bind, pure, Except.pure]
    · simp [Except.isOk, Except.toBool, Bind.bind, Except.bind, hr, throw, throwThe,
        MonadExceptOf.throw]

/-- Amended C5: each typed decoder succeeds exactly when the bech32
decode succeeds and the decoded tag equals the expected one (`npub`,
`nsec`, `note` respectively); the payload length is not constrained. -/
theorem typedDecoders_check_prefix_only (s : String) :
    ((npubDecode s).isOk = true ↔ ∃ d, bech32Decode s.data = .ok ("npub".data, d)) ∧
    ((nsecDecode s).isOk = true ↔ ∃ d, bech32Decode s.data = .ok ("nsec".data, d)) ∧
    ((noteDecode s).isOk = true ↔ ∃ d, bech32Decode s.data = .ok ("note".data, d)) :=
  ⟨isOk_tagDecode (bech32Decode s.data) "npub".data "Invalid npub",
   isOk_tagDecode (bech32Decode s.data) "nsec".data "Invalid nsec",
   isOk_tagDecode (bech32Decode s.data) "note".data "Invalid note"⟩

/-- A well-formed bech32 string under the `npub` tag whose payload is 16
bytes, not the entity's natural 32. -/
def shortNpub : String :=
  match bech32Encode "npub".data (List.replicate 16 0) with
  | .ok cs => String.mk cs
  | .error _ => ""

/-- Counterexample to C5 as stated: `shortNpub` carries a 16-byte
payload, yet `npubDecode` succeeds on it instead of failing. -/
theorem npubDecode_accepts_short_payload :
    bech32Decode shortNpub.data = .ok ("npub".data, List.replicate 16 0) ∧
      (List.replicate 16 0).length ≠ 32 ∧
      npubDecode shortNpub = .ok "00000000000000000000000000000000" :=
  ⟨rfl, by decide, rfl⟩

/-! Claim C4: `verifyEvent` error handling. The try/catch protects only
the Schnorr check; `getEventHash` is called before the try block, so a
structurally malformed event makes `verifyEvent` throw instead of
returning false. -/

/-- A stand-in hash primitive for closed evaluations (the library
function is total; its values are irrelevant to the claims). -/
def sha256Stub : List Nat → List Nat := fun _ => List.replicate 32 0

/-- A stand-in Schnorr check for closed evaluations. -/
def schnorrVerifyStub : JSValue → String → JSValue → Except String Bool :=
  fun _ _ _ => .ok true

/-- Counterexample to C4 as stated: on a malformed event (kind is a
string), recomputing the hash throws inside `serializeEvent`, and
`verifyEvent` propagates that exception instead of returning false. -/
theorem verifyEvent_throws_on_malformed :
    verifyEvent sha256Stub schnorrVerifyStub (.obj [("kind", .str "1")]) =
      .error "Can't serialize event with wrong or missing properties" := rfl

/-- A structurally valid event can always be read at any key. -/
theorem getField_ok_of_valid {event : JSValue}
    (h : validateEvent event = .ok true) (k : String) :
    ∃ v, getField event k = .ok v := by
  cases event with
  | null =>
    rw [show validateEvent JSValue.null =
      Except.error "TypeError: cannot read properties of null (reading kind)" from rfl] at h
    simp at h
  | jsUndefined =>
    rw [show validateEvent JSValue.jsUndefined = Except.ok false from rfl] at h
    simp at h
  | boolean b =>
    rw [show validateEvent (JSValue.boolean b) = Except.ok false from rfl] at h
    simp at h
  | num n =>
    rw [show validateEvent (JSValue.num n) = Except.ok false from rfl] at h
    simp at h
  | str s =>
    rw [show validateEvent (JSValue.str s) = Except.ok false from rfl] at h
    simp at h
  | arr elems => exact ⟨_, rfl⟩
  | obj fields => exact ⟨_, rfl⟩

/-- A structurally valid event serializes. -/
theorem serializeEvent_ok_of_valid {event : JSValue}
    (h : validateEvent event = .ok true) :
    ∃ s0, serializeEvent event = .ok s0 := by
  obtain ⟨pk, hpk⟩ := getField_ok_of_valid h "pubkey"
  obtain ⟨ca, hca⟩ := getField_ok_of_valid h "created_at"
  obtain ⟨ki, hki⟩ := getField_ok_of_valid h "kind"
  obtain ⟨tg, htg⟩ := getField_ok_of_valid h "tags"
  obtain ⟨co, hco⟩ := getField_ok_of_valid h "content"
  have hs : serializeEvent event =
      .ok (jsonStringify (.arr [.num 0, pk, ca, ki, tg, co])) := by
    simp [serializeEvent, h, hpk, hca, hki, htg, hco, Bind.bind, Except.bind,
      pure, Except.pure]
  exact ⟨_, hs⟩

/-- Amended C4: for events that pass structural validation, `verifyEvent`
always returns a boolean, and the boolean is exactly the one the claim
describes — `false` when the recomputed hash disagrees with the stored
`id`, and, when it agrees, the Schnorr library's verdict with any
exception converted to `false`. But for a malformed event the exception
raised while recomputing the hash is NOT caught: a failed validation's
error propagates to the caller. -/
theorem verifyEvent_error_contract (sha256 : List Nat → List Nat)
    (schnorrVerify : JSValue → String → JSValue → Except String Bool)
    (event : JSValue) :
    (validateEvent event = .ok true →
      ∃ s0 idv sigv pkv,
        serializeEvent event = .ok s0 ∧
        getField event "id" = .ok idv ∧
        getField event "sig" = .ok sigv ∧
        getField event "pubkey" = .ok pkv ∧
        verifyEvent sha256 schnorrVerify event = .ok
          (if jsStrictEqStr (bytesToHex (sha256 (utf8Encode s0))) idv then
            match schnorrVerify sigv (bytesToHex (sha256 (utf8Encode s0))) pkv with
            | .ok b => b
            | .error _ => false
          else false)) ∧
    (validateEvent event = .ok false →
      verifyEvent sha256 schnorrVerify event =
        .error "Can't serialize event with wrong or missing properties") ∧
    (∀ e, validateEvent event = .error e →
      verifyEvent sha256 schnorrVerify event = .error e) := by
  refine ⟨fun hv => ?_, fun hv => ?_, fun e hv => ?_⟩
  · obtain ⟨s0, hs⟩ := serializeEvent_ok_of_valid hv
    obtain ⟨idv, hid⟩ := getField_ok_of_valid hv "id"
    obtain ⟨sigv, hsig⟩ := getField_ok_of_valid hv "sig"
    obtain ⟨pkv, hpkv⟩ := getField_ok_of_valid hv "pubkey"
    refine ⟨s0, idv, sigv, pkv, hs, hid, hsig, hpkv, ?_⟩
    by_cases hqe : jsStrictEqStr (bytesToHex (sha256 (utf8Encode s0))) idv = true
    case neg =>
      rw [Bool.not_eq_true] at hqe
      simp [verifyEvent, getEventHash, hs, hid, hqe,
        Bind.bind, Except.bind, pure, Except.pure]
    case pos =>
      cases hsv : schnorrVerify sigv (bytesToHex (sha256 (utf8Encode s0))) pkv with
      | ok b =>
        simp [verifyEvent, getEventHash, hs, hid, hsig, hpkv, hqe, hsv,
          Bind.bind, Except.bind, pure, Except.pure]
      | error er =>
        simp [verifyEvent, getEventHash, hs, hid, hsig, hpkv, hqe, hsv,
          Bind.bind, Except.bind, pure, Except.pure]
  · simp [verifyEvent, getEventHash, serializeEvent, hv,
      Bind.bind, Except.bind, pure, Except.pure, throw, throwThe, MonadExceptOf.throw]
  · simp [verifyEvent, getEventHash, serializeEvent, hv,
      Bind.bind, Except.bind, pure, Except.pure, throw, throwThe, MonadExceptOf.throw]

/-- A concrete structurally valid event for closed evaluations. -/
def sampleValidEvent : JSValue :=
  .obj [("kind", .num 1), ("content", .str "hello"),
        ("created_at", .num 1700000000),
        ("pubkey", .str (String.mk (List.replicate 64 'a'))),
        ("tags", .arr [.arr [.str "p", .str "x"]])]

/-- Witness for amended C4 at a concrete valid event and stub crypto. -/
theorem verifyEvent_error_contract_witness :
    ∃ s0 idv sigv pkv,
      serializeEvent sampleValidEvent = .ok s0 ∧
      getField sampleValidEvent "id" = .ok idv ∧
      getField sampleValidEvent "sig" = .ok sigv ∧
      getField sampleValidEvent "pubkey" = .ok pkv ∧
      verifyEvent sha256Stub schnorrVerifyStub sampleValidEvent = .ok
        (if jsStrictEqStr (bytesToHex (sha256Stub (utf8Encode s0))) idv then
          match schnorrVerifyStub sigv (bytesToHex (sha256Stub (utf8Encode s0))) pkv with
          | .ok b => b
          | .error _ => false
        else false) :=
  (verifyEvent_error_contract sha256Stub schnorrVerifyStub sampleValidEvent).1 rfl

/-! Claim C1: verify-of-finalize round trip. The curve and hash
primitives live in an external library; they enter as parameters, with
the library's contract (a signature by the matching secret key verifies
under the derived public key; public keys are 32 bytes) as hypotheses. -/

/-- Each byte below 256 renders as exactly two lowercase hex characters. -/
theorem hexByte_spec_fin : ∀ b : Fin 256,
    (padStart2 (jsToHexString b.1)).data.length = 2 ∧
      (padStart2 (jsToHexString b.1)).data.all isHexLowerChar = true := by decide

/-- Folding string concatenation concatenates the character data. -/
theorem data_foldl_append (l : List String) (acc : String) :
    (l.foldl (fun r s => r ++ s) acc).data =
      acc.data ++ (l.map String.data).flatten := by
  induction l generalizing acc with
  | nil => simp
  | cons s rest ih =>
    simp only [List.foldl_cons, List.map_cons, List.flatten_cons]
    rw [ih, String.data_append, List.append_assoc]

/-- The data of a joined string list. -/
theorem data_join (l : List String) :
    (String.join l).data = (l.map String.data).flatten := by
  have h := data_foldl_append l ""
  rw [show ("" : String).data = [] from rfl, List.nil_append] at h
  exact h

/-- A 32-byte value renders through `bytesToHex` as a string matched by
the 64-lowercase-hex regex. -/
theorem matchHex64_bytesToHex (bs : List Nat) (hlen : bs.length = 32)
    (hb : ∀ b ∈ bs, b < 256) : matchHex64 (bytesToHex bs) = true := by
  have hdata : (bytesToHex bs).data =
      (bs.map (fun b => (padStart2 (jsToHexString b)).data)).flatten := by
    unfold bytesToHex
    rw [data_join, List.map_map]
    rfl
  have hkey : ∀ l : List Nat, (∀ b ∈ l, b < 256) →
      ((l.map (fun b => (padStart2 (jsToHexString b)).data)).flatten.length = 2 * l.length ∧
        (l.map (fun b => (padStart2 (jsToHexString b)).data)).flatten.all
          isHexLowerChar = true) := by
    intro l
    induction l with
    | nil => simp
    | cons b rest ih =>
      intro hmem
      have hbb : b < 256 := hmem b (List.mem_cons_self b rest)
      have hspec := hexByte_spec_fin ⟨b, hbb⟩
      have ihh := ih (fun x hx => hmem x (List.mem_cons_of_mem b hx))
      simp only [List.map_cons, List.flatten_cons, List.length_append,
        List.all_append, List.length_cons]
      refine ⟨?_, ?_⟩
      · rw [hspec.1, ihh.1]
        ring
      · rw [hspec.2, ihh.2]
        rfl
  have hk := hkey bs hb
  unfold matchHex64
  rw [hdata, hk.1.trans (by rw [hlen]), hk.2]
  rfl

/-- Setting a key makes it the looked-up binding. -/
theorem lookup_setAssoc_self {α : Type} (fields : List (String × α)) (k : String)
    (x : α) : (setAssoc fields k x).lookup k = some x := by
  induction fields with
  | nil => simp [setAssoc, List.lookup]
  | cons p rest ih =>
    by_cases h : p.1 = k
    · simp [setAssoc, h, List.lookup]
    · have hb : (k == p.1) = false := beq_false_of_ne (fun he => h he.symm)
      simp [setAssoc, h, List.lookup, hb, ih]

/-- Setting one key leaves every other key's binding unchanged. -/
theorem lookup_setAssoc_ne {α : Type} (fields : List (String × α)) (k k2 : String)
    (x : α) (hne : k2 ≠ k) : (setAssoc fields k x).lookup k2 = fields.lookup k2 := by
  induction fields with
  | nil => simp [setAssoc, List.lookup, beq_false_of_ne hne]
  | cons p rest ih =>
    by_cases h : p.1 = k
    · have hb : (k2 == k) = false := beq_false_of_ne hne
      have hb2 : (k2 == p.1) = false := beq_false_of_ne (h ▸ hne)
      simp [setAssoc, h, List.lookup, hb, hb2]
    · simp only [setAssoc, h, if_false, List.lookup, ih]

/-- `validateEvent` on an object whose five checked fields have the
right shapes and whose pubkey matches the hex regex. -/
theorem validateEvent_obj (fs : List (String × JSValue)) (k t : Int)
    (c pk : String) (ts : List JSValue)
    (hk : fs.lookup "kind" = some (.num k))
    (hc : fs.lookup "content" = some (.str c))
    (ht : fs.lookup "created_at" = some (.num t))
    (hp : fs.lookup "pubkey" = some (.str pk))
    (hg : fs.lookup "tags" = some (.arr ts))
    (hmp : matchHex64 pk = true)
    (htags : ts.all validTag = true) :
    validateEvent (.obj fs) = .ok true := by
  simp [validateEvent, getField, hk, hc, ht, hp, hg, hmp, htags, jsTypeof,
    jsIsArray, Bind.bind, Except.bind, pure, Except.pure]

/-- `serializeEvent` on such an object: the canonical array, stringified. -/
theorem serializeEvent_obj (fs : List (String × JSValue)) (k t : Int)
    (c pk : String) (ts : List JSValue)
    (hk : fs.lookup "kind" = some (.num k))
    (hc : fs.lookup "content" = some (.str c))
    (ht : fs.lookup "created_at" = some (.num t))
    (hp : fs.lookup "pubkey" = some (.str pk))
    (hg : fs.lookup "tags" = some (.arr ts))
    (hmp : matchHex64 pk = true)
    (htags : ts.all validTag = true) :
    serializeEvent (.obj fs) =
      .ok (jsonStringify (.arr [.num 0, .str pk, .num t, .num k, .arr ts, .str c])) := by
  have hv := validateEvent_obj fs k t c pk ts hk hc ht hp hg hmp htags
  simp [serializeEvent, hv, getField, hk, hc, ht, hp, hg,
    Bind.bind, Except.bind, pure, Except.pure]

/-- C1: for every event template whose fields pass structural validation
(kind and created_at numbers, content a string, tags an array of arrays
of strings — any pubkey field is overwritten) and every secret key,
under the curve library's contract (32-byte derived public keys;
a signature by the key verifies under the derived public key),
finalizing and then verifying succeeds: `verify (finalize tmpl sk)`
returns `true`. -/
theorem verify_finalize_roundtrip
    (getPublicKey : List Nat → List Nat) (sign : String → List Nat → List Nat)
    (sha256 : List Nat → List Nat)
    (schnorrVerify : JSValue → String → JSValue → Except String Bool)
    (secretKey : List Nat)
    (hpkLen : (getPublicKey secretKey).length = 32)
    (hpkBytes : ∀ b ∈ getPublicKey secretKey, b < 256)
    (hcorrect : ∀ msg, schnorrVerify (.str (bytesToHex (sign msg secretKey))) msg
        (.str (bytesToHex (getPublicKey secretKey))) = .ok true)
    (fs : List (String × JSValue)) (k t : Int) (c : String) (ts : List JSValue)
    (hk : fs.lookup "kind" = some (.num k))
    (hc : fs.lookup "content" = some (.str c))
    (ht : fs.lookup "created_at" = some (.num t))
    (hg : fs.lookup "tags" = some (.arr ts))
    (htags : ts.all validTag = true) :
    ∃ ev, finalizeEvent getPublicKey sign sha256 (.obj fs) secretKey = .ok ev ∧
      verifyEvent sha256 schnorrVerify ev = .ok true := by
  set pkhex := bytesToHex (getPublicKey secretKey)
  set fs1 := setAssoc fs "pubkey" (.str pkhex)
  have hk1 : fs1.lookup "kind" = some (.num k) :=
    (lookup_setAssoc_ne fs "pubkey" "kind" _ (by decide)).trans hk
  have hc1 : fs1.lookup "content" = some (.str c) :=
    (lookup_setAssoc_ne fs "pubkey" "content" _ (by decide)).trans hc
  have ht1 : fs1.lookup "created_at" = some (.num t) :=
    (lookup_setAssoc_ne fs "pubkey" "created_at" _ (by decide)).trans ht
  have hg1 : fs1.lookup "tags" = some (.arr ts) :=
    (lookup_setAssoc_ne fs "pubkey" "tags" _ (by decide)).trans hg
  have hp1 : fs1.lookup "pubkey" = some (.str pkhex) := lookup_setAssoc_self fs _ _
  have hmp : matchHex64 pkhex = true :=
    matchHex64_bytesToHex _ hpkLen hpkBytes
  set str1 := jsonStringify (.arr [.num 0, .str pkhex, .num t, .num k, .arr ts, .str c])
  have hser1 : serializeEvent (.obj fs1) = .ok str1 :=
    serializeEvent_obj fs1 k t c pkhex ts hk1 hc1 ht1 hp1 hg1 hmp htags
  set hash1 := bytesToHex (sha256 (utf8Encode str1))
  have hgeh1 : getEventHash sha256 (.obj fs1) = .ok hash1 := by
    simp [getEventHash, hser1, Bind.bind, Except.bind, pure, Except.pure]
  set sighex := bytesToHex (sign hash1 secretKey)
  set fs3 := setAssoc (setAssoc fs1 "id" (.str hash1)) "sig" (.str sighex)
  have hfin : finalizeEvent getPublicKey sign sha256 (.obj fs) secretKey =
      .ok (.obj fs3) := by
    simp [finalizeEvent, jsSetField, hgeh1, Bind.bind, Except.bind, pure, Except.pure]
  have hk3 : fs3.lookup "kind" = some (.num k) :=
    ((lookup_setAssoc_ne _ "sig" "kind" _ (by decide)).trans
      (lookup_setAssoc_ne _ "id" "kind" _ (by decide))).trans hk1
  have hc3 : fs3.lookup "content" = some (.str c) :=
    ((lookup_setAssoc_ne _ "sig" "content" _ (by decide)).trans
      (lookup_setAssoc_ne _ "id" "content" _ (by decide))).trans hc1
  have ht3 : fs3.lookup "created_at" = some (.num t) :=
    ((lookup_setAssoc_ne _ "sig" "created_at" _ (by decide)).trans
      (lookup_setAssoc_ne _ "id" "created_at" _ (by decide))).trans ht1
  have hg3 : fs3.lookup "tags" = some (.arr ts) :=
    ((lookup_setAssoc_ne _ "sig" "tags" _ (by decide)).trans
      (lookup_setAssoc_ne _ "id" "tags" _ (by decide))).trans hg1
  have hp3 : fs3.lookup "pubkey" = some (.str pkhex) :=
    ((lookup_setAssoc_ne _ "sig" "pubkey" _ (by decide)).trans
      (lookup_setAssoc_ne _ "id" "pubkey" _ (by decide))).trans hp1
  have hid3 : fs3.lookup "id" = some (.str hash1) :=
    (lookup_setAssoc_ne _ "sig" "id" _ (by decide)).trans
      (lookup_setAssoc_self _ _ _)
  have hsig3 : fs3.lookup "sig" = some (.str sighex) := lookup_setAssoc_self _ _ _
  have hser3 : serializeEvent (.obj fs3) = .ok str1 :=
    serializeEvent_obj fs3 k t c pkhex ts hk3 hc3 ht3 hp3 hg3 hmp htags
  have hgeh3 : getEventHash sha256 (.obj fs3) = .ok hash1 := by
    simp [getEventHash, hser3, Bind.bind, Except.bind, pure, Except.pure]
  refine ⟨.obj fs3, hfin, ?_⟩
  have hcor := hcorrect hash1
  simp [verifyEvent, hgeh3, getField, hid3, hsig3, hp3, jsStrictEqStr, hcor,
    Bind.bind, Except.bind, pure, Except.pure]

/-- A toy public-key derivation for the witness: 32 zero bytes. -/
def getPublicKeyToy : List Nat → List Nat := fun _ => List.replicate 32 0

/-- A toy signing function for the witness: 64 one bytes. -/
def signToy : String → List Nat → List Nat := fun _ _ => List.replicate 64 1

/-- A toy Schnorr check satisfying the library contract for the toy
signer: accept exactly the toy signature under the toy public key. -/
def schnorrVerifyToy : JSValue → String → JSValue → Except String Bool :=
  fun sig _ pk =>
    .ok (jsStrictEqStr (bytesToHex (List.replicate 64 1)) sig
      && jsStrictEqStr (bytesToHex (List.replicate 32 0)) pk)

/-- Witness for C1 at a concrete template, secret key, and crypto
implementation satisfying the hypotheses. -/
theorem verify_finalize_roundtrip_witness :
    ∃ ev, finalizeEvent getPublicKeyToy signToy sha256Stub
        (.obj [("kind", .num 1), ("created_at", .num 1700000000),
               ("content", .str "hi"), ("tags", .arr [.arr [.str "t"]])]) [42] =
          .ok ev ∧
      verifyEvent sha256Stub schnorrVerifyToy ev = .ok true := by
  refine verify_finalize_roundtrip getPublicKeyToy signToy sha256Stub schnorrVerifyToy
    [42] (by decide) (by decide) (fun msg => ?_) _ 1 1700000000 "hi"
    [.arr [.str "t"]] rfl rfl rfl rfl (by decide)
  show Except.ok (jsStrictEqStr (bytesToHex (List.replicate 64 1))
      (.str (bytesToHex (signToy msg [42])))
    && jsStrictEqStr (bytesToHex (List.replicate 32 0))
      (.str (bytesToHex (getPublicKeyToy [42])))) = Except.ok true
  rfl

/-! Claim C2: bech32 round trip. The proof tracks `convertBits` through a
numeric invariant: the emitted groups and the pending accumulator bits
together encode the big-endian value of the consumed input groups. -/

/-- The big-endian value of a list of `w`-bit groups. -/
def dataVal (w : Nat) (l : List Nat) : Nat :=
  l.foldl (fun n v => n * 2 ^ w + v) 0

/-- The fold with an arbitrary seed, in terms of `dataVal`. -/
theorem dataVal_foldl (w : Nat) (l : List Nat) : ∀ n : Nat,
    l.foldl (fun a v => a * 2 ^ w + v) n = n * 2 ^ (w * l.length) + dataVal w l := by
  induction l with
  | nil => intro n; simp [dataVal]
  | cons v rest ih =>
    intro n
    have hv : dataVal w (v :: rest) = v * 2 ^ (w * rest.length) + dataVal w rest := by
      show List.foldl (fun a v => a * 2 ^ w + v) 0 (v :: rest) = _
      rw [List.foldl_cons, ih]
      simp
    rw [List.foldl_cons, ih, hv, List.length_cons]
    ring

/-- Value of a cons. -/
theorem dataVal_cons (w v : Nat) (l : List Nat) :
    dataVal w (v :: l) = v * 2 ^ (w * l.length) + dataVal w l := by
  show List.foldl (fun a v => a * 2 ^ w + v) 0 (v :: l) = _
  rw [List.foldl_cons, dataVal_foldl]
  simp

/-- Value of an append. -/
theorem dataVal_append (w : Nat) (l1 l2 : List Nat) :
    dataVal w (l1 ++ l2) = dataVal w l1 * 2 ^ (w * l2.length) + dataVal w l2 := by
  show List.foldl (fun a v => a * 2 ^ w + v) 0 (l1 ++ l2) = _
  rw [List.foldl_append, dataVal_foldl]
  rfl

/-- The value of a bounded group list is bounded. -/
theorem dataVal_lt (w : Nat) (l : List Nat) (h : ∀ x ∈ l, x < 2 ^ w) :
    dataVal w l < 2 ^ (w * l.length) := by
  induction l with
  | nil => simp [dataVal]
  | cons v rest ih =>
    rw [dataVal_cons, List.length_cons]
    have hv : v < 2 ^ w := h v (List.mem_cons_self v rest)
    have hr := ih (fun x hx => h x (List.mem_cons_of_mem v hx))
    have hpow : 2 ^ (w * (rest.length + 1)) = 2 ^ (w * rest.length) * 2 ^ w := by
      rw [Nat.mul_succ, pow_add]
    rw [hpow]
    calc v * 2 ^ (w * rest.length) + dataVal w rest
        < (v + 1) * 2 ^ (w * rest.length) := by rw [Nat.succ_mul]; omega
      _ ≤ 2 ^ w * 2 ^ (w * rest.length) := Nat.mul_le_mul_right _ hv
      _ = 2 ^ (w * rest.length) * 2 ^ w := by ring

/-- Bounded group lists of equal length with equal value are equal. -/
theorem dataVal_inj (w : Nat) : ∀ (l1 l2 : List Nat), l1.length = l2.length →
    (∀ x ∈ l1, x < 2 ^ w) → (∀ x ∈ l2, x < 2 ^ w) →
    dataVal w l1 = dataVal w l2 → l1 = l2 := by
  intro l1
  induction l1 with
  | nil =>
    intro l2 hlen _ _ _
    cases l2 with
    | nil => rfl
    | cons b bs => simp at hlen
  | cons a as ih =>
    intro l2 hlen h1 h2 hval
    cases l2 with
    | nil => simp at hlen
    | cons b bs =>
      have hlen2 : as.length = bs.length := by simpa using hlen
      rw [dataVal_cons, dataVal_cons, hlen2] at hval
      have hab : dataVal w as < 2 ^ (w * bs.length) := by
        rw [← hlen2]
        exact dataVal_lt w as (fun x hx => h1 x (List.mem_cons_of_mem a hx))
      have hbb : dataVal w bs < 2 ^ (w * bs.length) :=
        dataVal_lt w bs (fun x hx => h2 x (List.mem_cons_of_mem b hx))
      have hB : 0 < 2 ^ (w * bs.length) := Nat.pos_pow_of_pos _ (by omega)
      have heq : a = b := by
        by_contra hne
        rcases Nat.lt_or_ge a b with hlt | hge
        · have : a * 2 ^ (w * bs.length) + dataVal w as <
              b * 2 ^ (w * bs.length) + dataVal w bs := by
            calc a * 2 ^ (w * bs.length) + dataVal w as
                < (a + 1) * 2 ^ (w * bs.length) := by
                  rw [Nat.succ_mul]; omega
              _ ≤ b * 2 ^ (w * bs.length) := Nat.mul_le_mul_right _ hlt
              _ ≤ b * 2 ^ (w * bs.length) + dataVal w bs := Nat.le_add_right _ _
          omega
        · have hlt2 : b < a := by omega
          have : b * 2 ^ (w * bs.length) + dataVal w bs <
              a * 2 ^ (w * bs.length) + dataVal w as := by
            calc b * 2 ^ (w * bs.length) + dataVal w bs
                < (b + 1) * 2 ^ (w * bs.length) := by
                  rw [Nat.succ_mul]; omega
              _ ≤ a * 2 ^ (w * bs.length) := Nat.mul_le_mul_right _ hlt2
              _ ≤ a * 2 ^ (w * bs.length) + dataVal w as := Nat.le_add_right _ _
          omega
      subst heq
      have htails : dataVal w as = dataVal w bs := by omega
      rw [ih bs hlen2 (fun x hx => h1 x (List.mem_cons_of_mem a hx))
        (fun x hx => h2 x (List.mem_cons_of_mem a hx)) htails]

/-- The emit loop, with enough fuel, drains the accumulator's pending
bits into `toBits`-bit groups, leaving `bits % toBits` pending: the
emitted groups are exactly the top bits of `acc % 2 ^ bits`. -/
theorem cbEmitGo_spec (t : Nat) (ht : 0 < t) : ∀ (fuel acc bits : Nat),
    bits ≤ fuel →
    ∃ out, cbEmitGo fuel t (2 ^ t - 1) acc bits = (out, bits % t) ∧
      out.length = bits / t ∧ (∀ x ∈ out, x < 2 ^ t) ∧
      dataVal t out = acc % 2 ^ bits / 2 ^ (bits % t) := by
  intro fuel
  induction fuel with
  | zero =>
    intro acc bits hb
    have hb0 : bits = 0 := by omega
    subst hb0
    refine ⟨[], rfl, by simp, by simp, ?_⟩
    simp [dataVal, Nat.mod_one]
  | succ fuel2 ih =>
    intro acc bits hb
    by_cases hcase : t ≤ bits
    · obtain ⟨out2, heq, hlen, hbound, hval⟩ := ih acc (bits - t) (by omega)
      have hmod : (bits - t) % t = bits % t := by
        conv_rhs => rw [show bits = bits - t + t by omega]
        rw [Nat.add_mod_right]
      have hdiv : bits / t = (bits - t) / t + 1 := Nat.div_eq_sub_div ht hcase
      refine ⟨((acc >>> (bits - t)) &&& (2 ^ t - 1)) :: out2, ?_, ?_, ?_, ?_⟩
      · show (if 0 < t ∧ t ≤ bits then _ else _) = _
        rw [if_pos ⟨ht, hcase⟩]
        simp only [heq, hmod]
      · simp [hlen, hdiv]
      · intro x hx
        rcases List.mem_cons.mp hx with hx | hx
        · subst hx
          rw [Nat.and_pow_two_sub_one_eq_mod]
          exact Nat.mod_lt _ (Nat.pos_pow_of_pos _ (by omega))
        · exact hbound x hx
      · rw [dataVal_cons, hlen, hval, hmod]
        rw [Nat.and_pow_two_sub_one_eq_mod, Nat.shiftRight_eq_div_pow]
        set m := bits - t
        set r := bits % t
        have hr2 : r = m % t := hmod.symm
        have hrm : r ≤ m := by
          rw [hr2]
          exact Nat.mod_le m t
        have hsplit : acc % 2 ^ bits =
            acc / 2 ^ m % 2 ^ t * 2 ^ m + acc % 2 ^ m := by
          have hb2 : bits = m + t := by omega
          rw [hb2, pow_add, Nat.mod_mul]
          ring
        rw [hsplit]
        have hm : 2 ^ m = 2 ^ (m - r) * 2 ^ r := by
          rw [← pow_add]
          congr 1
          omega
        have hprod : acc / 2 ^ m % 2 ^ t * 2 ^ m =
            acc / 2 ^ m % 2 ^ t * 2 ^ (m - r) * 2 ^ r := by
          rw [mul_assoc, ← pow_add]
          congr 2
          omega
        have hdivs :
            (acc / 2 ^ m % 2 ^ t * 2 ^ m + acc % 2 ^ m) / 2 ^ r =
              acc % 2 ^ m / 2 ^ r + acc / 2 ^ m % 2 ^ t * 2 ^ (m - r) := by
          rw [hprod, Nat.add_comm,
            Nat.add_mul_div_right _ _ (Nat.pos_pow_of_pos _ (by omega))]
        rw [hdivs]
        have hmr : t * (m / t) = m - r := by
          have hdm := Nat.div_add_mod m t
          omega
        rw [hmr]
        ring
    · refine ⟨[], ?_, ?_, by simp, ?_⟩
      · show (if 0 < t ∧ t ≤ bits then _ else _) = _
        rw [if_neg (by omega), Nat.mod_eq_of_lt (show bits < t by omega)]
      · simp [Nat.div_eq_of_lt (show bits < t by omega)]
      · rw [Nat.mod_eq_of_lt (show bits < t by omega)]
        have hlt : acc % 2 ^ bits < 2 ^ bits :=
          Nat.mod_lt _ (Nat.pos_pow_of_pos _ (by omega))
        simp [dataVal, Nat.div_eq_of_lt hlt]

/-- The emit loop as called (fuel = bits). -/
theorem cbEmit_spec (t : Nat) (ht : 0 < t) (acc bits : Nat) :
    ∃ out, cbEmit t (2 ^ t - 1) acc bits = (out, bits % t) ∧
      out.length = bits / t ∧ (∀ x ∈ out, x < 2 ^ t) ∧
      dataVal t out = acc % 2 ^ bits / 2 ^ (bits % t) :=
  cbEmitGo_spec t ht bits acc bits (Nat.le_refl bits)

/-- The main `convertBits` loop: starting below `toBits` pending bits,
it consumes bounded `fromBits`-bit groups and maintains the invariant
that emitted groups and pending accumulator bits encode the value of the
consumed input. The `% 2 ^ 32` of JS arithmetic is invisible because at
most `toBits + fromBits ≤ 32` accumulator bits are ever read. -/
theorem cbLoop_spec (f t : Nat) (ht : 0 < t) (h32 : t + f ≤ 32) :
    ∀ (data : List Nat) (acc bits : Nat), bits < t → (∀ v ∈ data, v < 2 ^ f) →
    ∃ out accF bitsF,
      cbLoop f t (2 ^ t - 1) data acc bits = .ok (out, accF, bitsF) ∧
      bitsF < t ∧ (∀ x ∈ out, x < 2 ^ t) ∧
      t * out.length + bitsF = bits + f * data.length ∧
      dataVal t out * 2 ^ bitsF + accF % 2 ^ bitsF =
        acc % 2 ^ bits * 2 ^ (f * data.length) + dataVal f data := by
  intro data
  induction data with
  | nil =>
    intro acc bits hbits _
    refine ⟨[], acc, bits, rfl, hbits, by simp, by simp, ?_⟩
    simp [dataVal]
  | cons v rest ih =>
    intro acc bits hbits hdata
    have hv : v < 2 ^ f := hdata v (List.mem_cons_self v rest)
    have hguard : (v >>> f != 0) = false := by
      rw [Nat.shiftRight_eq_div_pow, Nat.div_eq_of_lt hv]
      rfl
    set acc2 := (acc <<< f) % 2 ^ 32 + v with hacc2eq
    have hbits2 : bits + f ≤ 32 := by omega
    have hacc2 : acc2 % 2 ^ (bits + f) = acc % 2 ^ bits * 2 ^ f + v := by
      have hm : acc * 2 ^ f % 2 ^ (bits + f) = acc % 2 ^ bits * 2 ^ f := by
        rw [pow_add, Nat.mul_mod_mul_right]
      have hsm : acc % 2 ^ bits * 2 ^ f + v < 2 ^ (bits + f) := by
        have h1 : acc % 2 ^ bits < 2 ^ bits := Nat.mod_lt _ (Nat.pos_pow_of_pos _ (by omega))
        have h2 : acc % 2 ^ bits * 2 ^ f + v < (acc % 2 ^ bits + 1) * 2 ^ f := by
          rw [Nat.succ_mul]
          omega
        calc acc % 2 ^ bits * 2 ^ f + v
            < (acc % 2 ^ bits + 1) * 2 ^ f := h2
          _ ≤ 2 ^ bits * 2 ^ f := Nat.mul_le_mul_right _ h1
          _ = 2 ^ (bits + f) := (pow_add 2 bits f).symm
      rw [hacc2eq, Nat.shiftLeft_eq]
      rw [Nat.add_mod, Nat.mod_mod_of_dvd _ (pow_dvd_pow 2 hbits2), ← Nat.add_mod]
      rw [Nat.add_mod, hm, Nat.mod_eq_of_lt (show v < 2 ^ (bits + f) by
        calc v < 2 ^ f := hv
          _ ≤ 2 ^ (bits + f) := Nat.pow_le_pow_right (by omega) (by omega))]
      exact Nat.mod_eq_of_lt hsm
    obtain ⟨out1, hem, hlen1, hbound1, hval1⟩ := cbEmit_spec t ht acc2 (bits + f)
    set r2 := (bits + f) % t with hr2eq
    have hr2lt : r2 < t := Nat.mod_lt _ (by omega)
    obtain ⟨out2, accF, bitsF, heq2, hbF, hbound2, hlen2, hval2⟩ :=
      ih acc2 r2 hr2lt (fun x hx => hdata x (List.mem_cons_of_mem v hx))
    refine ⟨out1 ++ out2, accF, bitsF, ?_, hbF, ?_, ?_, ?_⟩
    · show (if (v >>> f != 0) = true then _ else _) = _
      rw [hguard, if_neg (by simp)]
      simp only [hem, heq2]
    · intro x hx
      rcases List.mem_append.mp hx with hx | hx
      · exact hbound1 x hx
      · exact hbound2 x hx
    · have e1 : t * out1.length + r2 = bits + f := by
        rw [hlen1, hr2eq]
        exact Nat.div_add_mod (bits + f) t
      rw [List.length_append, List.length_cons, Nat.mul_add, Nat.mul_succ]
      omega
    · have hout1 : dataVal t out1 * 2 ^ r2 + acc2 % 2 ^ r2 = acc2 % 2 ^ (bits + f) := by
        rw [hval1, show acc2 % 2 ^ r2 = acc2 % 2 ^ (bits + f) % 2 ^ r2 from
          (Nat.mod_mod_of_dvd _ (pow_dvd_pow 2 (hr2eq ▸ Nat.mod_le (bits + f) t))).symm,
          Nat.mul_comm _ (2 ^ r2)]
        exact Nat.div_add_mod _ _
      have hexp : t * out2.length + bitsF = r2 + f * rest.length := hlen2
      have hstep : dataVal t out1 * 2 ^ (r2 + f * rest.length) +
          (dataVal t out2 * 2 ^ bitsF + accF % 2 ^ bitsF) =
          (dataVal t out1 * 2 ^ r2 + acc2 % 2 ^ r2) * 2 ^ (f * rest.length)
            + dataVal f rest := by
        rw [hval2, pow_add]
        ring
      rw [dataVal_append, dataVal_cons]
      calc (dataVal t out1 * 2 ^ (t * out2.length) + dataVal t out2) * 2 ^ bitsF
            + accF % 2 ^ bitsF
          = dataVal t out1 * 2 ^ (t * out2.length + bitsF) +
            (dataVal t out2 * 2 ^ bitsF + accF % 2 ^ bitsF) := by
            rw [pow_add]
            ring
        _ = dataVal t out1 * 2 ^ (r2 + f * rest.length) +
            (dataVal t out2 * 2 ^ bitsF + accF % 2 ^ bitsF) := by rw [hexp]
        _ = (dataVal t out1 * 2 ^ r2 + acc2 % 2 ^ r2) * 2 ^ (f * rest.length)
            + dataVal f rest := hstep
        _ = acc2 % 2 ^ (bits + f) * 2 ^ (f * rest.length) + dataVal f rest := by
            rw [hout1]
        _ = (acc % 2 ^ bits * 2 ^ f + v) * 2 ^ (f * rest.length) + dataVal f rest := by
            rw [hacc2]
        _ = acc % 2 ^ bits * 2 ^ (f * (rest.length + 1)) +
            (v * 2 ^ (f * rest.length) + dataVal f rest) := by
            rw [Nat.mul_succ, pow_add]
            ring
        _ = acc % 2 ^ bits * 2 ^ (f * (v :: rest).length) +
            (v * 2 ^ (f * rest.length) + dataVal f rest) := by
            rw [List.length_cons]

/-- `convertBits data 8 5 true` on a 32-byte payload: 52 five-bit groups
whose value is the payload's value shifted by the 4 zero padding bits. -/
theorem convertBits_enc_spec (data : List Nat) (hlen : data.length = 32)
    (hdata : ∀ v ∈ data, v < 256) :
    ∃ comb, convertBits data 8 5 true = .ok comb ∧ comb.length = 52 ∧
      (∀ x ∈ comb, x < 32) ∧ dataVal 5 comb = dataVal 8 data * 16 := by
  obtain ⟨out, accF, bitsF, hloop, hbF, hbound, hlenF, hval⟩ :=
    cbLoop_spec 8 5 (by norm_num) (by norm_num) data 0 0 (by norm_num)
      (fun v hv => hdata v hv)
  rw [hlen] at hlenF
  have hbF1 : bitsF = 1 := by omega
  subst hbF1
  have hlen51 : out.length = 51 := by omega
  norm_num at hval
  refine ⟨out ++ [accF % 2 * 16], ?_, ?_, ?_, ?_⟩
  · have hloop2 : cbLoop 8 5 ((1 <<< 5) - 1) data 0 0 = Except.ok (out, accF, 1) := hloop
    simp only [convertBits]
    rw [hloop2]
    have helem : accF <<< 4 &&& 31 = accF % 2 * 16 := by
      have h31 : accF <<< 4 &&& 31 = accF * 16 % 32 := by
        rw [Nat.shiftLeft_eq]
        exact Nat.and_pow_two_sub_one_eq_mod (accF * 2 ^ 4) 5
      rw [h31]
      exact Nat.mul_mod_mul_right 16 accF 2
    simp [helem]
  · simp [hlen51]
  · intro x hx
    rcases List.mem_append.mp hx with hx | hx
    · exact hbound x hx
    · have hm2 : accF % 2 < 2 := Nat.mod_lt _ (by norm_num)
      simp only [List.mem_singleton] at hx
      omega
  · rw [dataVal_append]
    have hsingle : dataVal 5 [accF % 2 * 16] = accF % 2 * 16 := by
      rw [dataVal_cons]
      simp [dataVal]
    rw [hsingle, List.length_cons, List.length_nil]
    have h32 : (2 : Nat) ^ (5 * 1) = 32 := by norm_num
    rw [h32]
    omega

/-- `convertBits comb 5 8 false` on 52 bounded groups whose value is a
multiple of 16: the padding check passes and the 32 recovered bytes
carry exactly the unshifted value. -/
theorem convertBits_dec_spec (comb : List Nat) (hlen : comb.length = 52)
    (hbound : ∀ x ∈ comb, x < 32) (N : Nat) (hN : dataVal 5 comb = N * 16) :
    ∃ S, convertBits comb 5 8 false = .ok S ∧ S.length = 32 ∧
      (∀ x ∈ S, x < 256) ∧ dataVal 8 S = N := by
  obtain ⟨out, accF, bitsF, hloop, hbF, hboundO, hlenF, hval⟩ :=
    cbLoop_spec 5 8 (by norm_num) (by norm_num) comb 0 0 (by norm_num)
      (fun v hv => hbound v hv)
  rw [hlen] at hlenF
  have hbF4 : bitsF = 4 := by omega
  subst hbF4
  have hlen32 : out.length = 32 := by omega
  norm_num at hval
  rw [hN] at hval
  have hm16 : accF % 16 < 16 := Nat.mod_lt _ (by norm_num)
  have hmod0 : accF % 16 = 0 := by omega
  have hvalN : dataVal 8 out = N := by omega
  refine ⟨out, ?_, hlen32, fun x hx => hboundO x hx, hvalN⟩
  have hloop2 : cbLoop 5 8 ((1 <<< 8) - 1) comb 0 0 = Except.ok (out, accF, 4) := hloop
  simp only [convertBits]
  rw [hloop2]
  have helem : accF <<< 4 &&& 255 = accF % 16 * 16 := by
    have h255 : accF <<< 4 &&& 255 = accF * 16 % 256 := by
      rw [Nat.shiftLeft_eq]
      exact Nat.and_pow_two_sub_one_eq_mod (accF * 2 ^ 4) 8
    rw [h255]
    exact Nat.mul_mod_mul_right 16 accF 16
  simp [helem, hmod0]

/-- Round trip of the bit regrouping on a 32-byte payload. -/
theorem convertBits_roundtrip (data : List Nat) (hlen : data.length = 32)
    (hdata : ∀ v ∈ data, v < 256) :
    ∃ comb, convertBits data 8 5 true = .ok comb ∧ comb.length = 52 ∧
      (∀ x ∈ comb, x < 32) ∧ convertBits comb 5 8 false = .ok data := by
  obtain ⟨comb, hc, hclen, hcbound, hcval⟩ := convertBits_enc_spec data hlen hdata
  obtain ⟨S, hS, hSlen, hSbound, hSval⟩ :=
    convertBits_dec_spec comb hclen hcbound (dataVal 8 data) hcval
  have hSd : S = data := by
    refine dataVal_inj 8 S data (by rw [hSlen, hlen]) ?_ ?_ hSval
    · intro x hx
      have := hSbound x hx
      norm_num
      omega
    · intro x hx
      have := hdata x hx
      norm_num
      omega
  exact ⟨comb, hc, hclen, hcbound, hSd ▸ hS⟩

/-- `lastIndexOf` misses an absent character. -/
theorem lastIndexOf_of_not_mem (c : Char) (l : List Char) (h : c ∉ l) :
    lastIndexOf c l = -1 := by
  induction l with
  | nil => rfl
  | cons x xs ih =>
    have hx : ¬x = c := fun he => h (he ▸ List.mem_cons_self x xs)
    have hxs : c ∉ xs := fun hm => h (List.mem_cons_of_mem x hm)
    simp [lastIndexOf, ih hxs, hx]

/-- `lastIndexOf` finds the separator when nothing after it matches —
whatever the human-readable part contains. -/
theorem lastIndexOf_append_sep (hrp body : List Char) (hbody : '1' ∉ body) :
    lastIndexOf '1' (hrp ++ '1' :: body) = hrp.length := by
  induction hrp with
  | nil => simp [lastIndexOf, lastIndexOf_of_not_mem '1' body hbody]
  | cons x xs ih =>
    have hunf : lastIndexOf '1' (x :: (xs ++ '1' :: body)) =
        if lastIndexOf '1' (xs ++ '1' :: body) ≥ 0
        then lastIndexOf '1' (xs ++ '1' :: body) + 1
        else if x = '1' then 0 else -1 := rfl
    rw [List.cons_append, hunf, ih, if_pos (Int.natCast_nonneg xs.length)]
    simp [List.length_cons]

/-- The checksum has six symbols. -/
theorem createChecksum_length (hrp : List Char) (data : List Nat) :
    (createChecksum hrp data).length = 6 := by
  simp [createChecksum]

/-- Every checksum symbol is below 32. -/
theorem createChecksum_lt (hrp : List Char) (data : List Nat) :
    ∀ x ∈ createChecksum hrp data, x < 32 := by
  intro x hx
  simp only [createChecksum, List.mem_map] at hx
  obtain ⟨i, _, hieq⟩ := hx
  have hle : ((bech32Polymod (prefixExpand hrp ++ data ++ [0, 0, 0, 0, 0, 0]) ^^^ 1) >>>
      (5 * (5 - i))) &&& 31 ≤ 31 := Nat.and_le_right
  omega

/-- No alphabet symbol at an index below 32 is the separator '1'. -/
theorem charset_getD_ne_one_fin :
    ∀ i : Fin 32, BECH32_CHARSET.getD i.1 ' ' ≠ '1' := by decide

/-- Translating an alphabet symbol back through `findIdx?` recovers its
index (the alphabet has 32 distinct symbols). -/
theorem charset_findIdx_getD_fin :
    ∀ i : Fin 32, BECH32_CHARSET.findIdx?
      (fun x => x == BECH32_CHARSET.getD i.1 ' ') = some i.1 := by decide

/-- The symbol-by-symbol decode loop inverts the alphabet rendering. -/
theorem mapM_decode_ok (l : List Nat) (hl : ∀ x ∈ l, x < 32) :
    (l.map (fun i => BECH32_CHARSET.getD i ' ')).mapM (fun c =>
      match BECH32_CHARSET.findIdx? (fun x => x == c) with
      | some v => Except.ok v
      | none => Except.error "Invalid character") = .ok l := by
  induction l with
  | nil => rfl
  | cons x rest ih =>
    have hx : x < 32 := hl x (List.mem_cons_self x rest)
    rw [List.map_cons, List.mapM_cons,
      charset_findIdx_getD_fin ⟨x, hx⟩,
      ih (fun y hy => hl y (List.mem_cons_of_mem x hy))]
    rfl

/-- Amended C2: for every NONEMPTY human-readable part and every 32-byte
payload, decoding the encoding returns exactly the original pair. (For
the empty hrp the decoder rejects the encoder's output: the separator
sits at index 0 and `pos < 1` throws.) -/
theorem bech32_roundtrip (hrp : List Char) (hhrp : hrp ≠ [])
    (data : List Nat) (hlen : data.length = 32) (hdata : ∀ b ∈ data, b < 256) :
    ∃ enc, bech32Encode hrp data = .ok enc ∧ bech32Decode enc = .ok (hrp, data) := by
  obtain ⟨comb, hc, hclen, hcbound, hcdec⟩ := convertBits_roundtrip data hlen hdata
  set cs := createChecksum hrp comb with hcseq
  set body := (comb ++ cs).map (fun i => BECH32_CHARSET.getD i ' ') with hbodyeq
  have henc : bech32Encode hrp data = .ok (hrp ++ '1' :: body) := by
    simp [bech32Encode, hc, Bind.bind, Except.bind, pure, Except.pure, hbodyeq, hcseq]
  refine ⟨hrp ++ '1' :: body, henc, ?_⟩
  have hcombcs : ∀ x ∈ comb ++ cs, x < 32 := by
    intro x hx
    rcases List.mem_append.mp hx with hx | hx
    · exact hcbound x hx
    · exact createChecksum_lt hrp comb x hx
  have hbody1 : '1' ∉ body := by
    intro hm
    rw [hbodyeq] at hm
    obtain ⟨i, hi, hieq⟩ := List.mem_map.mp hm
    exact charset_getD_ne_one_fin ⟨i, hcombcs i hi⟩ hieq
  have hpos : lastIndexOf '1' (hrp ++ '1' :: body) = (hrp.length : Int) :=
    lastIndexOf_append_sep hrp body hbody1
  have hlenhrp : 1 ≤ hrp.length := List.length_pos.mpr hhrp
  have hnotlt : ¬((hrp.length : Int) < 1) := by exact_mod_cast Nat.not_lt.mpr hlenhrp
  have htonat : (hrp.length : Int).toNat = hrp.length := Int.toNat_natCast _
  have htake : (hrp ++ '1' :: body).take hrp.length = hrp := List.take_left hrp _
  have hdrop : (hrp ++ '1' :: body).drop (hrp.length + 1) = body := by
    have h2 : hrp ++ '1' :: body = (hrp ++ ['1']) ++ body := by simp
    have h3 : hrp.length + 1 = (hrp ++ ['1']).length := by simp
    rw [h2, h3]
    exact List.drop_left _ _
  have hmapm : body.mapM (fun c =>
      match BECH32_CHARSET.findIdx? (fun x => x == c) with
      | some v => Except.ok v
      | none => Except.error "Invalid character") = .ok (comb ++ cs) := by
    rw [hbodyeq]
    exact mapM_decode_ok (comb ++ cs) hcombcs
  have hdeclen : (comb ++ cs).length = 58 := by
    rw [List.length_append, hclen, hcseq, createChecksum_length]
  have htake52 : (comb ++ cs).take ((comb ++ cs).length - 6) = comb := by
    rw [hdeclen, show (58 : Nat) - 6 = 52 from rfl, ← hclen]
    exact List.take_left comb cs
  have hdrop52 : (comb ++ cs).drop ((comb ++ cs).length - 6) = cs := by
    rw [hdeclen, show (58 : Nat) - 6 = 52 from rfl, ← hclen]
    exact List.drop_left comb cs
  simp only [bech32Decode, hpos, htonat, htake, hdrop, hmapm, htake52, hdrop52,
    Bind.bind, Except.bind, pure, Except.pure, hnotlt, if_false]
  rw [← hcseq, bne_self_eq_false]
  simp [hcdec, Bind.bind, Except.bind, pure, Except.pure]

/-- Counterexample to C2 as stated ("for every prefix"): with the empty
prefix, the encoder's output starts with the separator, so the decoder's
`pos < 1` guard rejects it — the round trip throws instead of returning
the original pair. -/
theorem bech32_roundtrip_empty_hrp_fails :
    (do
      let enc ← bech32Encode [] (List.replicate 32 0)
      bech32Decode enc) = .error "Invalid bech32 string" := rfl

/-- Witness for amended C2 at the `npub` tag and a concrete payload. -/
theorem bech32_roundtrip_witness :
    ∃ enc, bech32Encode "npub".data (List.replicate 32 0) = .ok enc ∧
      bech32Decode enc = .ok ("npub".data, List.replicate 32 0) :=
  bech32_roundtrip "npub".data (by decide) (List.replicate 32 0) (by decide)
    (fun b hb => by
      rw [List.eq_of_mem_replicate hb]
      norm_num)
